import Mathlib

/-!
Verification of the clustering_economies toolkit (`tools.py`).

The file gives a shallow embedding of the orchestration logic of the two
classes `Preprocessing` and `Clustering`.  Every third-party fitting routine
(scikit-learn, fastcluster, hdbscan) is treated as an opaque total function
supplied through an `MLLib` record: the repository never inspects their
internals, it only routes data into them and stores what comes back, so each
claim is a statement about that routing.  DataFrames are embedded as lists of
rows; pandas missing values are `Option.none`; Python floats are modelled by
`ℚ` (exact arithmetic, no rounding — none of the claims concerns rounding).
-/

namespace Preprocessing

/-- A pandas DataFrame as held by `Preprocessing`: row labels are the
`Country Code` index, column labels the column names, `rows` the cell grid.
A cell is `none` when the entry is missing (NaN). -/
structure PTable (α : Type) where
  rowLabels : List String
  colLabels : List String
  rows : List (List (Option α))
deriving DecidableEq

/-- Number of missing entries of one row (`df.isnull().sum(axis=1)` for that
row). -/
def countNone {α : Type} (row : List (Option α)) : Nat :=
  (row.filter (fun c => c.isNone)).length

/-- Number of missing entries of column `j` (`df.isnull().sum(axis=0)` for
that column).  Rows too short to reach position `j` contribute a missing
entry, matching a rectangular frame padded with NaN. -/
def colMissing {α : Type} (t : PTable α) (j : Nat) : Nat :=
  (t.rows.filter (fun r => (r.getD j none).isNone)).length

/-- `missing_df` of `dropPoorFeatures`: per-row missing counts when
`axis = 0` (dropping rows), per-column missing counts otherwise. -/
def missingCounts {α : Type} (t : PTable α) (axis : Nat) : List Nat :=
  if axis = 0 then t.rows.map countNone
  else (List.range t.colLabels.length).map (colMissing t)

/-- The denominator used by `dropPoorFeatures`: `len(self.df.columns)` when
dropping rows, `len(self.df)` when dropping columns. -/
def axisLen {α : Type} (t : PTable α) (axis : Nat) : Nat :=
  if axis = 0 then t.colLabels.length else t.rows.length

/-- The labels along the pruned axis. -/
def axisLabels {α : Type} (t : PTable α) (axis : Nat) : List String :=
  if axis = 0 then t.rowLabels else t.colLabels

/-- `poor_features` of `dropPoorFeatures`: the labels whose missing count
exceeds `p * length` (strict comparison, as in the source). -/
def poorFeatures {α : Type} (t : PTable α) (axis : Nat) (p : ℚ) : List String :=
  (((axisLabels t axis).zip (missingCounts t axis)).filter
    (fun lm => decide (p * (axisLen t axis : ℚ) < (lm.2 : ℚ)))).map (fun lm => lm.1)

/-- `Preprocessing.dropPoorFeatures`: drops the rows (`axis = 0`) or columns
(otherwise) whose missing count exceeds `p * length`, by label, and returns
the pruned table together with the dropped labels. -/
def dropPoorFeatures {α : Type} (t : PTable α) (axis : Nat) (p : ℚ) :
    PTable α × List String :=
  let poor := poorFeatures t axis p
  if axis = 0 then
    (⟨t.rowLabels.filter (fun l => decide (l ∉ poor)), t.colLabels,
      ((t.rowLabels.zip t.rows).filter (fun lr => decide (lr.1 ∉ poor))).map
        (fun lr => lr.2)⟩, poor)
  else
    (⟨t.rowLabels, t.colLabels.filter (fun l => decide (l ∉ poor)),
      t.rows.map (fun row =>
        ((t.colLabels.zip row).filter (fun cr => decide (cr.1 ∉ poor))).map
          (fun cr => cr.2))⟩, poor)

/-- A cell of the table built by `Preprocessing.__init__`: the non-numeric
`Country Name` field or a numeric feature value. -/
inductive Cell where
  | name (s : String)
  | num (q : ℚ)
deriving DecidableEq

/-- The DataFrame of `Preprocessing` after `__init__`: one `Country Name`
column followed by the numeric feature columns.  `nameCell` is `none` when
the display name itself is missing. -/
def prepTable (rows : List (String × Option String × List (Option ℚ)))
    (featNames : List String) : PTable Cell :=
  ⟨rows.map (fun r => r.1), "Country Name" :: featNames,
   rows.map (fun r => (r.2.1.map Cell.name) :: r.2.2.map (fun c => c.map Cell.num))⟩

/-- Errors of the preprocessing stage (spec §7 taxonomy). -/
inductive PrepError where
  | duplicateKey
  | imputation
deriving DecidableEq

/-- One raw CSV record: the `Country Code` key, the `Country Name` field and
the remaining fields as unparsed text. -/
structure RawRow where
  code : String
  name : String
  fields : List String
deriving DecidableEq

/-- The table produced by a successful load. -/
structure LoadedTable where
  codes : List String
  names : List String
  cells : List (List (Option ℚ))
deriving DecidableEq

/-- `Preprocessing.__init__` (load): sets `Country Code` as the index with
`verify_integrity=True` — failing with `DuplicateKeyError` when the codes
are not unique — and converts every field except `Country Name` to numeric
with `errors='coerce'`.  The numeric parser is passed in as a total function
`parse`; an unparseable cell becomes `none`, never an exception.  Column
sub-selection (`varlist`) only restricts `fields` beforehand and is
orthogonal to this claim. -/
def load (parse : String → Option ℚ) (rows : List RawRow) :
    Except PrepError LoadedTable :=
  if (rows.map RawRow.code).Nodup then
    .ok ⟨rows.map RawRow.code, rows.map RawRow.name,
         rows.map (fun r => r.fields.map parse)⟩
  else .error .duplicateKey

end Preprocessing

/-- Auxiliary, fuel-driven digit expansion: most significant digit first.
`natStrAux fuel n` is the digit string of `n` provided `n ≤ fuel` (and `n ≠ 0`). -/
def natStrAux : Nat → Nat → List Char
  | 0, _ => []
  | fuel+1, n => if n = 0 then [] else natStrAux fuel (n / 10) ++ [Nat.digitChar (n % 10)]

/-- The character list of the decimal representation of `n`. -/
def natStrL (n : Nat) : List Char := if n = 0 then ['0'] else natStrAux n n

/-- Model of Python `str(n)` for the natural numbers appearing in run names
(`'kmeans' + str(n_clusters)` and the like): the decimal representation. -/
def natStr (n : Nat) : String := ⟨natStrL n⟩

/-- Left inverse of `natStrL`: reads a decimal digit string back. -/
def parseNat (l : List Char) : Nat := l.foldl (fun a c => a * 10 + (c.toNat - 48)) 0

namespace Clustering

/-- A numeric data matrix (list of rows), standing for the standardized
feature DataFrame or the principal-component score DataFrame. -/
abbrev Mat := List (List ℚ)

/-- A flat array of integer cluster labels, one per country. -/
abbrev Labels := List Int

/-- The stored form of one clustering result: the table built by
`clustersTable`, one row per cluster label with the member display names. -/
abbrev GroupsTable := List (Int × List String)

/-- Insert an integer into a strictly sorted list, keeping it strictly
sorted (duplicates collapse). -/
def insertSorted (x : Int) : List Int → List Int
  | [] => [x]
  | y :: ys =>
    if x < y then x :: y :: ys
    else if x = y then y :: ys
    else y :: insertSorted x ys

/-- The distinct values of `l` in ascending order.  Used to state the
defining property of Python's stable `sorted` in `stableSortPairs` (and, in
the witnesses, as one concrete admissible set-enumeration). -/
def sortedDistinct (l : List Int) : List Int := l.foldr insertSorted []

/-- Python's stable `sorted(pairs, key=lambda x: x[0])`, by its defining
property: the concatenation, over the distinct keys in ascending order, of
the fibers of the original list in original order.  A stable sort is the
unique such list. -/
def stableSortPairs (l : List (Int × String)) : List (Int × String) :=
  (sortedDistinct (l.map (fun p => p.1))).flatMap
    (fun x => l.filter (fun p => p.1 == x))

/-- `Clustering.clustersTable`: zips the label array with the country names,
stably sorts by label, and builds one table row per element of
`groups = set(map(lambda x: x[0], lis))` holding the display names carrying
that label.  CPython iterates a set in an implementation-defined, hash-bucket
order (for ints it is NOT ascending in general: `hash(-1) = -2` sends the
hdbscan noise label `-1` to a late bucket), so the iteration order is an
opaque parameter `setEnum` here; the Python set contract — `setEnum l`
enumerates each distinct element of `l` exactly once — is a hypothesis of
the theorems that need it, not part of the definition. -/
def clustersTable (setEnum : List Int → List Int) (clustering : Labels)
    (names : List String) : GroupsTable :=
  let lis := stableSortPairs (clustering.zip names)
  let groups := setEnum (lis.map (fun p => p.1))
  groups.map (fun x => (x, (lis.filter (fun p => p.1 == x)).map (fun p => p.2)))

/-- The opaque environment of the analyzer: the third-party fitting
routines, as opaque total functions, plus `setEnum`, the iteration order the
running CPython produces for a `set` of int labels (used by
`clustersTable`; implementation-defined and fixed for a given process, so a
function of the inserted elements).  The repository only routes data into
the fits; no claim depends on their internals.  `kmeansFit` receives the
state of the process-wide numpy RNG as its first argument because
`KMeans(n_clusters, n_init)` is constructed without a `random_state` and
therefore draws its centroid initializations from that global generator;
the other fits are modelled as deterministic since no claim concerns their
randomness. -/
structure MLLib where
  scale : Mat → Mat
  pcaScores : Mat → Mat
  linkFcluster : String → String → ℚ → Mat → Labels
  hdbscanFit : Nat → Mat → Labels
  gmFit : Nat → String → Nat → Mat → Labels
  bgmFit : Nat → String → Nat → Mat → Labels
  gmBICval : Nat → String → Nat → Mat → ℚ
  kmeansFit : Nat → Nat → Nat → Mat → Labels
  silhouette : Mat → Labels → ℚ
  calinski : Mat → Labels → ℚ
  setEnum : List Int → List Int

/-- Errors surfaced by clustering calls (spec §7 taxonomy).
`precomputeRequired` is the failure of reading `self.df_pc` before
`getPC` has created it. -/
inductive CErr where
  | precomputeRequired
  | library
deriving DecidableEq

/-- The state of one analysis session: the standardized feature table, the
country display names, the optional principal-component score table (absent
until `getPC` runs), the results collection `self.clusterings` (most recent
binding first), the `min_BIC` pair, and the state of the process-wide numpy
RNG. -/
structure Session where
  df : Mat
  country_names : List String
  df_pc : Option Mat
  clusterings : List (String × GroupsTable)
  min_BIC : Option (Nat × ℚ)
  rng : Nat
deriving DecidableEq

/-- `Clustering.__init__`: standardizes the table, keeps the display names,
and starts with an empty results collection and no principal components. -/
def init (lib : MLLib) (raw : Mat) (names : List String) (rng0 : Nat) : Session :=
  { df := lib.scale raw, country_names := names, df_pc := none,
    clusterings := [], min_BIC := none, rng := rng0 }

/-- `Clustering.getPC`: computes the principal-component scores of the
standardized table and stores them for later projection. -/
def getPC (lib : MLLib) (s : Session) : Session :=
  { s with df_pc := some (lib.pcaScores s.df) }

/-- The common prologue of every clustering method:
`if on_PC > 0: df = self.df_pc.iloc[:, :on_PC+1] else: df = self.df`.
Reading `self.df_pc` before `getPC` has run fails (AttributeError in the
source, `PrecomputeRequiredError` in the spec's taxonomy). -/
def selectSpace (s : Session) (onPC : Nat) : Except CErr Mat :=
  if 0 < onPC then
    match s.df_pc with
    | some dpc => .ok (dpc.map (List.take (onPC + 1)))
    | none => .error .precomputeRequired
  else .ok s.df

/-- A dictionary write `self.clusterings[name] = table`: the most recent
binding shadows older ones. -/
def store (m : List (String × GroupsTable)) (k : String) (v : GroupsTable) :
    List (String × GroupsTable) :=
  (k, v) :: m

/-- A dictionary read: the most recent binding for the name, if any. -/
def lookupRun (m : List (String × GroupsTable)) (k : String) : Option GroupsTable :=
  (m.find? (fun e => e.1 == k)).map (fun e => e.2)

/-- The linkage-method argument of `hierarchicalClustering`: a single string
or a list of strings. -/
def resolveMethods : String ⊕ List String → List String
  | .inl m =>
    if m = "all" then
      ["average", "complete", "single", "weighted", "centroid", "median", "ward"]
    else [m]
  | .inr ms => ms

/-- One iteration of the `hierarchicalClustering` loop body for linkage
method `met`: compute flat cluster labels (`fcluster` over the `linkage`
matrix, cut at `threshold`) and store the groups table under
`hierarchical_<method>_<metric>`. -/
def hierStep (lib : MLLib) (metric : String) (threshold : ℚ) (df : Mat)
    (st : Session) (met : String) : Session :=
  { st with clusterings := (store st.clusterings
      ("hierarchical_" ++ met ++ "_" ++ metric)
      (clustersTable lib.setEnum (lib.linkFcluster metric met threshold df)
        st.country_names)) }

/-- `Clustering.hierarchicalClustering`: runs the loop body once per
resolved linkage method on the selected feature space. -/
def hierarchicalClustering (lib : MLLib) (metric : String)
    (method : String ⊕ List String) (threshold : ℚ) (onPC : Nat) (s : Session) :
    Except CErr Session :=
  match selectSpace s onPC with
  | .error e => .error e
  | .ok df =>
    .ok ((resolveMethods method).foldl (hierStep lib metric threshold df) s)

/-- `Clustering.hdbscan`: density clustering on the selected space, stored
under the fixed name `hdbscan`. -/
def hdbscanCluster (lib : MLLib) (minClusterSize onPC : Nat) (s : Session) :
    Except CErr Session :=
  match selectSpace s onPC with
  | .error e => .error e
  | .ok df =>
    .ok { s with clusterings := (store s.clusterings "hdbscan"
            (clustersTable lib.setEnum (lib.hdbscanFit minClusterSize df) s.country_names)) }

/-- `Clustering.gaussianMixture`: mixture fit on the selected space, stored
under `gm<n>`. -/
def gaussianMixture (lib : MLLib) (nComponents : Nat) (cov : String)
    (nInit onPC : Nat) (s : Session) : Except CErr Session :=
  match selectSpace s onPC with
  | .error e => .error e
  | .ok df =>
    .ok { s with clusterings := (store s.clusterings ("gm" ++ natStr nComponents)
            (clustersTable lib.setEnum (lib.gmFit nComponents cov nInit df) s.country_names)) }

/-- `Clustering.bayesianGaussianMixture`: as `gaussianMixture`, stored under
`bayesian gm<n>`. -/
def bayesianGaussianMixture (lib : MLLib) (nComponents : Nat) (cov : String)
    (nInit onPC : Nat) (s : Session) : Except CErr Session :=
  match selectSpace s onPC with
  | .error e => .error e
  | .ok df =>
    .ok { s with clusterings := (store s.clusterings
            ("bayesian gm" ++ natStr nComponents)
            (clustersTable lib.setEnum (lib.bgmFit nComponents cov nInit df) s.country_names)) }

/-- First index of the minimum of a list (`np.argmin`); `0` on the empty
list, where numpy instead raises. -/
def argminIdx : List ℚ → Nat
  | [] => 0
  | x :: xs =>
    match xs with
    | [] => 0
    | _ :: _ => if x ≤ (xs.getD (argminIdx xs) 0) then 0 else argminIdx xs + 1

/-- Minimum of a list (`np.min`); `0` on the empty list, where numpy instead
raises. -/
def listMin : List ℚ → ℚ
  | [] => 0
  | x :: xs => xs.foldl min x

/-- `Clustering.gmBIC`: fits one Gaussian mixture per component count in
`np.arange(n_min, n_max)`, collects the BIC of each, and stores
`[bics.argmin() + 1, bics.min()]` in `self.min_BIC`.  No entry of
`self.clusterings` is written. -/
def gmBIC (lib : MLLib) (nMin nMax : Nat) (cov : String) (nInit onPC : Nat)
    (s : Session) : Except CErr Session :=
  match selectSpace s onPC with
  | .error e => .error e
  | .ok df =>
    let ns := List.range' nMin (nMax - nMin)
    let bics := ns.map (fun n => lib.gmBICval n cov nInit df)
    .ok { s with min_BIC := some (argminIdx bics + 1, listMin bics) }

/-- `Clustering.kmeans`: re-seeds the global numpy RNG with `42`, fits
k-means on the selected space, stores the groups table under
`kmeans<n_clusters>`, and (when `evaluate`) computes the silhouette and
Calinski-Harabasz scores of the labels against the same space. -/
def kmeans (lib : MLLib) (nClusters onPC nInit : Nat) (evaluate : Bool)
    (s : Session) : Except CErr (Session × Option (ℚ × ℚ)) :=
  match selectSpace s onPC with
  | .error e => .error e
  | .ok df =>
    let s1 : Session := { s with rng := 42 }
    let labels := lib.kmeansFit s1.rng nClusters nInit df
    .ok ({ s1 with clusterings := (store s1.clusterings
             ("kmeans" ++ natStr nClusters)
             (clustersTable lib.setEnum labels s1.country_names)) },
         if evaluate then some (lib.silhouette df labels, lib.calinski df labels)
         else none)

/-- One iteration of the `multipleKmeans` loop body for cluster count `k`:
re-seed, fit, store `kmeans<k>`, append both scores. -/
def multiKmeansStep (lib : MLLib) (df : Mat) (nInit : Nat)
    (acc : Session × List ℚ × List ℚ) (k : Nat) : Session × List ℚ × List ℚ :=
  let st : Session := { acc.1 with rng := 42 }
  let labels := lib.kmeansFit st.rng k nInit df
  ({ st with clusterings := (store st.clusterings ("kmeans" ++ natStr k)
       (clustersTable lib.setEnum labels st.country_names)) },
   acc.2.1 ++ [lib.silhouette df labels],
   acc.2.2 ++ [lib.calinski df labels])

/-- `Clustering.multipleKmeans`: the `kmeans` loop body for every
`k` in `np.arange(k_min, k_max)`, returning the session together with the
silhouette and Calinski-Harabasz score sequences. -/
def multipleKmeans (lib : MLLib) (kMin kMax onPC nInit : Nat) (s : Session) :
    Except CErr (Session × List ℚ × List ℚ) :=
  match selectSpace s onPC with
  | .error e => .error e
  | .ok df =>
    .ok ((List.range' kMin (kMax - kMin)).foldl (multiKmeansStep lib df nInit)
          (s, [], []))

/-- One clustering call of the analyzer, with its parameters. -/
inductive Call where
  | hier (metric : String) (method : String ⊕ List String) (threshold : ℚ) (onPC : Nat)
  | hdb (minClusterSize onPC : Nat)
  | bgm (nComponents : Nat) (cov : String) (nInit onPC : Nat)
  | gm (nComponents : Nat) (cov : String) (nInit onPC : Nat)
  | bic (nMin nMax : Nat) (cov : String) (nInit onPC : Nat)
  | km (nClusters onPC nInit : Nat) (evaluate : Bool)
  | multiKm (kMin kMax onPC nInit : Nat)

/-- Run one call against a session, keeping only the session part of the
outcome. -/
def Call.apply (lib : MLLib) : Call → Session → Except CErr Session
  | .hier metric method th onPC, s => hierarchicalClustering lib metric method th onPC s
  | .hdb m onPC, s => hdbscanCluster lib m onPC s
  | .bgm n cov nInit onPC, s => bayesianGaussianMixture lib n cov nInit onPC s
  | .gm n cov nInit onPC, s => gaussianMixture lib n cov nInit onPC s
  | .bic a b cov nInit onPC, s => gmBIC lib a b cov nInit onPC s
  | .km n onPC nInit ev, s => (kmeans lib n onPC nInit ev s).map (fun r => r.1)
  | .multiKm a b onPC nInit, s => (multipleKmeans lib a b onPC nInit s).map (fun r => r.1)

/-- The `on_PC` argument of a call. -/
def Call.onPC : Call → Nat
  | .hier _ _ _ k => k
  | .hdb _ k => k
  | .bgm _ _ _ k => k
  | .gm _ _ _ k => k
  | .bic _ _ _ _ k => k
  | .km _ k _ _ => k
  | .multiKm _ _ k _ => k

/-- The run names a call stores results under. -/
def Call.runNames : Call → List String
  | .hier metric method _ _ =>
    (resolveMethods method).map (fun met => "hierarchical_" ++ met ++ "_" ++ metric)
  | .hdb _ _ => ["hdbscan"]
  | .bgm n _ _ _ => ["bayesian gm" ++ natStr n]
  | .gm n _ _ _ => ["gm" ++ natStr n]
  | .bic _ _ _ _ _ => []
  | .km n _ _ _ => ["kmeans" ++ natStr n]
  | .multiKm a b _ _ => (List.range' a (b - a)).map (fun k => "kmeans" ++ natStr k)

/-- Whether the call is the BIC sweep. -/
def Call.isBIC : Call → Bool
  | .bic _ _ _ _ _ => true
  | _ => false

end Clustering

/-- A concrete instantiation of the opaque fitting library, used by the
witnesses: every fit returns a fixed label array and the BIC of an
`n`-component mixture is `n`. -/
def demoLib : Clustering.MLLib :=
  { scale := fun m => m, pcaScores := fun m => m,
    linkFcluster := fun _ _ _ _ => [1], hdbscanFit := fun _ _ => [0],
    gmFit := fun _ _ _ _ => [0], bgmFit := fun _ _ _ _ => [0],
    gmBICval := fun n _ _ _ => (n : ℚ), kmeansFit := fun _ _ _ _ => [0],
    silhouette := fun _ _ => 0, calinski := fun _ _ => 0,
    setEnum := Clustering.sortedDistinct }

/-- A concrete fresh session (principal components not yet computed), used
by the witnesses. -/
def demoS : Clustering.Session :=
  { df := [[0]], country_names := ["x"], df_pc := none,
    clusterings := [], min_BIC := none, rng := 0 }

/-- `demoS` after computing principal components, used by the witnesses. -/
def demoSPC : Clustering.Session :=
  { demoS with df_pc := some [[1, 2], [3, 4]] }

/-- The session left by running `kmeans` with 2 clusters on `demoS` with
`demoLib`, used by the witnesses. -/
def demoS2 : Clustering.Session :=
  { df := [[0]], country_names := ["x"], df_pc := none,
    clusterings := [("kmeans2", [(0, ["x"])])], min_BIC := none, rng := 42 }

example :
    (Preprocessing.dropPoorFeatures
      (⟨["r1", "r2"], ["c1", "c2"], [[none, none], [some (1 : ℚ), none]]⟩ :
        Preprocessing.PTable ℚ) 0 (1/2)).2 = ["r1"] := by
  norm_num [Preprocessing.dropPoorFeatures, Preprocessing.poorFeatures,
    Preprocessing.axisLabels, Preprocessing.missingCounts, Preprocessing.axisLen,
    Preprocessing.countNone]

example :
    (Preprocessing.load (fun _ => none)
      [⟨"A", "a", []⟩, ⟨"A", "b", []⟩]).toOption = none := by
  norm_num [Preprocessing.load, Except.toOption]

example : Clustering.Call.apply demoLib (.km 2 0 1 true) demoS = .ok demoS2 := rfl

/-! ### Decimal representation: `natStr` is injective -/

theorem parseNat_append_singleton (l : List Char) (c : Char) :
    parseNat (l ++ [c]) = parseNat l * 10 + (c.toNat - 48) := by
  simp [parseNat, List.foldl_append]

theorem digitChar_val : ∀ d : Nat, d < 10 → (Nat.digitChar d).toNat - 48 = d := by
  decide

theorem parseNat_natStrAux : ∀ fuel n : Nat, n ≤ fuel →
    parseNat (natStrAux fuel n) = n := by
  intro fuel
  induction fuel with
  | zero =>
    intro n hn
    have : n = 0 := Nat.le_zero.mp hn
    subst this
    simp [natStrAux, parseNat]
  | succ f ih =>
    intro n hn
    by_cases h0 : n = 0
    · subst h0; simp [natStrAux, parseNat]
    · have hdiv : n / 10 ≤ f := by
        have : n / 10 < n := Nat.div_lt_self (Nat.pos_of_ne_zero h0) (by norm_num)
        omega
      have hmod : n % 10 < 10 := Nat.mod_lt _ (by norm_num)
      simp only [natStrAux, if_neg h0]
      rw [parseNat_append_singleton, ih _ hdiv, digitChar_val _ hmod]
      omega

theorem parseNat_natStrL (n : Nat) : parseNat (natStrL n) = n := by
  by_cases h0 : n = 0
  · subst h0; simp [natStrL, parseNat]
  · simp only [natStrL, if_neg h0]
    exact parseNat_natStrAux n n le_rfl

theorem natStr_injective : Function.Injective natStr := by
  intro a b hab
  have hdata : natStrL a = natStrL b := congrArg String.data hab
  have := congrArg parseNat hdata
  rwa [parseNat_natStrL, parseNat_natStrL] at this

theorem kmeansName_injective (j k : Nat)
    (h : "kmeans" ++ natStr j = "kmeans" ++ natStr k) : j = k := by
  apply natStr_injective
  have hd := congrArg String.data h
  simp only [String.data_append] at hd
  exact congrArg String.mk (List.append_cancel_left hd)

/-! ### `sortedDistinct`: sorted, distinct, same members -/

namespace Clustering

theorem mem_insertSorted (a x : Int) :
    ∀ l : List Int, a ∈ insertSorted x l ↔ a = x ∨ a ∈ l := by
  intro l
  induction l with
  | nil => simp [insertSorted]
  | cons y ys ih =>
    by_cases h1 : x < y
    · simp [insertSorted, if_pos h1]
    · by_cases h2 : x = y
      · subst h2
        simp only [insertSorted, if_neg h1]
        simp
      · simp only [insertSorted, if_neg h1, if_neg h2, List.mem_cons, ih]
        tauto

theorem sorted_insertSorted (x : Int) :
    ∀ l : List Int, l.Sorted (· < ·) → (insertSorted x l).Sorted (· < ·) := by
  intro l
  induction l with
  | nil => intro _; simp [insertSorted]
  | cons y ys ih =>
    intro hs
    rw [List.sorted_cons] at hs
    obtain ⟨hy, hys⟩ := hs
    by_cases h1 : x < y
    · simp only [insertSorted, if_pos h1, List.sorted_cons]
      refine ⟨?_, ?_⟩
      · intro b hb
        rcases List.mem_cons.mp hb with h | h
        · exact h ▸ h1
        · exact lt_trans h1 (hy b h)
      · exact ⟨hy, hys⟩
    · by_cases h2 : x = y
      · subst h2
        simp only [insertSorted, if_neg h1, List.sorted_cons, ite_self, if_true]
        simp only [List.sorted_cons] at *
        exact ⟨hy, hys⟩
      · have hyx : y < x := by
          rcases lt_trichotomy x y with h | h | h
          · exact absurd h h1
          · exact absurd h h2
          · exact h
        simp only [insertSorted, if_neg h1, if_neg h2, List.sorted_cons]
        refine ⟨?_, ih hys⟩
        intro b hb
        rcases (mem_insertSorted b x ys).mp hb with h | h
        · exact h ▸ hyx
        · exact hy b h

theorem sorted_sortedDistinct (l : List Int) :
    (sortedDistinct l).Sorted (· < ·) := by
  induction l with
  | nil => simp [sortedDistinct]
  | cons x xs ih => exact sorted_insertSorted x _ ih

theorem mem_sortedDistinct (a : Int) (l : List Int) :
    a ∈ sortedDistinct l ↔ a ∈ l := by
  induction l with
  | nil => simp [sortedDistinct]
  | cons x xs ih =>
    show a ∈ insertSorted x (sortedDistinct xs) ↔ _
    rw [mem_insertSorted, ih]
    simp

theorem nodup_sortedDistinct (l : List Int) : (sortedDistinct l).Nodup :=
  (sorted_sortedDistinct l).imp (fun h => ne_of_lt h)

theorem sortedDistinct_eq_of_mem_iff (l1 l2 : List Int)
    (h : ∀ a, a ∈ l1 ↔ a ∈ l2) : sortedDistinct l1 = sortedDistinct l2 := by
  apply List.eq_of_perm_of_sorted (r := (· < ·)) ?_
    (sorted_sortedDistinct l1) (sorted_sortedDistinct l2)
  rw [List.perm_ext_iff_of_nodup (nodup_sortedDistinct l1) (nodup_sortedDistinct l2)]
  intro a
  rw [mem_sortedDistinct, mem_sortedDistinct]
  exact h a

end Clustering

/-! ### Fibers of a pair list by key -/

namespace Clustering

theorem fiber_filter_ne (l : List (Int × String)) (x y : Int) (hxy : y ≠ x) :
    (l.filter (fun p => !(p.1 == x))).filter (fun p => p.1 == y)
      = l.filter (fun p => p.1 == y) := by
  rw [List.filter_filter]
  apply List.filter_congr
  intro p _
  by_cases h : p.1 = y
  · simp [h, hxy]
  · simp [h]

theorem join_fibers_perm :
    ∀ (g : List Int) (l : List (Int × String)), g.Nodup →
      (∀ p ∈ l, p.1 ∈ g) →
      (g.flatMap (fun x => l.filter (fun p => p.1 == x))).Perm l := by
  intro g
  induction g with
  | nil =>
    intro l _ hcov
    have hl : l = [] := by
      cases l with
      | nil => rfl
      | cons p ps => exact absurd (hcov p (by simp)) (by simp)
    subst hl; simp
  | cons x g' ih =>
    intro l hnd hcov
    rw [List.flatMap_cons]
    have hx : x ∉ g' := (List.nodup_cons.mp hnd).1
    have hnd' : g'.Nodup := (List.nodup_cons.mp hnd).2
    have hfib : g'.flatMap (fun y => l.filter (fun p => p.1 == y))
        = g'.flatMap (fun y =>
            (l.filter (fun p => !(p.1 == x))).filter (fun p => p.1 == y)) := by
      simp only [List.flatMap]
      congr 1
      apply List.map_congr_left
      intro y hy
      exact (fiber_filter_ne l x y (fun h => hx (h ▸ hy))).symm
    rw [hfib]
    have hcov' : ∀ p ∈ l.filter (fun p => !(p.1 == x)), p.1 ∈ g' := by
      intro p hp
      rw [List.mem_filter] at hp
      have h1 := hcov p hp.1
      have h2 : p.1 ≠ x := by simpa using hp.2
      rcases List.mem_cons.mp h1 with h | h
      · exact absurd h h2
      · exact h
    have hperm := ih (l.filter (fun p => !(p.1 == x))) hnd' hcov'
    exact (List.Perm.append_left _ hperm).trans (List.filter_append_perm _ l)

theorem filter_join_fibers (x : Int) :
    ∀ (g : List Int) (l : List (Int × String)), g.Nodup →
      (∀ p ∈ l, p.1 ∈ g) →
      (g.flatMap (fun y => l.filter (fun p => p.1 == y))).filter (fun p => p.1 == x)
        = l.filter (fun p => p.1 == x) := by
  intro g
  induction g with
  | nil =>
    intro l _ hcov
    have hl : l = [] := by
      cases l with
      | nil => rfl
      | cons p ps => exact absurd (hcov p (by simp)) (by simp)
    subst hl; simp
  | cons y g' ih =>
    intro l hnd hcov
    rw [List.flatMap_cons, List.filter_append]
    have hy : y ∉ g' := (List.nodup_cons.mp hnd).1
    have hnd' : g'.Nodup := (List.nodup_cons.mp hnd).2
    have hfib : g'.flatMap (fun z => l.filter (fun p => p.1 == z))
        = g'.flatMap (fun z =>
            (l.filter (fun p => !(p.1 == y))).filter (fun p => p.1 == z)) := by
      simp only [List.flatMap]
      congr 1
      apply List.map_congr_left
      intro z hz
      exact (fiber_filter_ne l y z (fun h => hy (h ▸ hz))).symm
    have hcov' : ∀ p ∈ l.filter (fun p => !(p.1 == y)), p.1 ∈ g' := by
      intro p hp
      rw [List.mem_filter] at hp
      have h1 := hcov p hp.1
      have h2 : p.1 ≠ y := by simpa using hp.2
      rcases List.mem_cons.mp h1 with h | h
      · exact absurd h h2
      · exact h
    rw [hfib, ih _ hnd' hcov']
    by_cases hxy : x = y
    · subst hxy
      have h1 : (l.filter (fun p => p.1 == x)).filter (fun p => p.1 == x)
          = l.filter (fun p => p.1 == x) := by
        rw [List.filter_filter]
        apply List.filter_congr
        intro p _
        by_cases h : p.1 = x <;> simp [h]
      have h2 : (l.filter (fun p => !(p.1 == x))).filter (fun p => p.1 == x)
          = [] := by
        rw [List.filter_filter]
        rw [List.filter_eq_nil_iff]
        intro p _
        by_cases h : p.1 = x <;> simp [h]
      rw [h1, h2, List.append_nil]
    · have h1 : (l.filter (fun p => p.1 == y)).filter (fun p => p.1 == x)
          = [] := by
        rw [List.filter_filter]
        rw [List.filter_eq_nil_iff]
        intro p _
        simp only [Bool.and_eq_true, beq_iff_eq, not_and]
        intro h h'
        exact absurd (by rw [← h, h']) hxy
      rw [h1, fiber_filter_ne l y x hxy, List.nil_append]

theorem stableSortPairs_perm (l : List (Int × String)) :
    (stableSortPairs l).Perm l := by
  apply join_fibers_perm
  · exact nodup_sortedDistinct _
  · intro p hp
    rw [mem_sortedDistinct]
    exact List.mem_map_of_mem _ hp

theorem filter_stableSortPairs (l : List (Int × String)) (x : Int) :
    (stableSortPairs l).filter (fun p => p.1 == x)
      = l.filter (fun p => p.1 == x) := by
  apply filter_join_fibers
  · exact nodup_sortedDistinct _
  · intro p hp
    rw [mem_sortedDistinct]
    exact List.mem_map_of_mem _ hp

theorem clustersTable_eq (setEnum : List Int → List Int) (labels : Labels)
    (names : List String) :
    clustersTable setEnum labels names
      = (setEnum ((stableSortPairs (labels.zip names)).map (fun p => p.1))).map
          (fun x => (x, ((labels.zip names).filter (fun p => p.1 == x)).map
            (fun p => p.2))) := by
  show (setEnum ((stableSortPairs (labels.zip names)).map (fun p => p.1))).map _
      = _
  apply List.map_congr_left
  intro x _
  rw [filter_stableSortPairs]

theorem mem_sortKeys_iff (labels : Labels) (names : List String)
    (h : labels.length = names.length) (a : Int) :
    a ∈ (stableSortPairs (labels.zip names)).map (fun p => p.1) ↔ a ∈ labels := by
  rw [((stableSortPairs_perm (labels.zip names)).map (fun p => p.1)).mem_iff]
  rw [List.map_fst_zip labels names (le_of_eq h)]

end Clustering

/-- C4 counterexample: the claimed ascending label order fails on the real
set-iteration order.  `clustersTable` iterates `groups = set(...)` in
CPython's hash-bucket order; with the hdbscan noise label `-1` present,
`hash(0) = 0` lands in bucket 0 of the 8-slot table while `hash(-1) = -2`
lands in bucket 6, so `set({-1, 0})` iterates as `0, -1`.  That enumeration
is admissible (distinct and covering — the first two conjuncts), yet the
returned table lists label `0` before `-1`: the distinct labels are not
sorted in ascending order. -/
theorem clustersTable_unsorted_cex :
    ([0, -1] : List Int).Nodup ∧
    (∀ a ∈ ([0, -1] : List Int), a ∈ ([-1, 0] : List Int)) ∧
    (∀ a ∈ ([-1, 0] : List Int), a ∈ ([0, -1] : List Int)) ∧
    Clustering.clustersTable (fun _ => [0, -1]) [-1, 0] ["x", "y"]
      = [(0, ["y"]), (-1, ["x"])] ∧
    ¬ ((Clustering.clustersTable (fun _ => [0, -1]) [-1, 0] ["x", "y"]).map
        (fun r => r.1)).Sorted (· < ·) := by
  refine ⟨by decide, by decide, by decide, by decide, by decide⟩

/-- C4 (amended): for every flat label array aligned to the entity index
and every set enumeration obeying the Python set contract (`setEnum l`
lists each distinct element of `l` exactly once, in the
implementation-defined iteration order), `clustersTable` returns a mapping
with one group per distinct label — the group keys are distinct and are
exactly the labels occurring in the array, appearing in the set-iteration
order rather than necessarily ascending — in which every entity appears in
exactly one group, the union of the groups equals the full entity set (the
concatenation of the groups is a permutation of the entity list), and the
entities within each label appear in entity-index order (each group is a
sublist of the entity list). -/
theorem clustersTable_partition (setEnum : List Int → List Int)
    (labels : Clustering.Labels) (names : List String)
    (h : labels.length = names.length)
    (hEnum : ∀ l : List Int, (setEnum l).Nodup ∧ (∀ a, a ∈ setEnum l ↔ a ∈ l)) :
    ((Clustering.clustersTable setEnum labels names).map (fun r => r.1)).Nodup ∧
    (∀ a, a ∈ (Clustering.clustersTable setEnum labels names).map (fun r => r.1)
      ↔ a ∈ labels) ∧
    ((Clustering.clustersTable setEnum labels names).map
      (fun r => r.2)).flatten.Perm names ∧
    (∀ g ∈ (Clustering.clustersTable setEnum labels names).map (fun r => r.2),
      g.Sublist names) := by
  rw [Clustering.clustersTable_eq]
  have hnd := (hEnum ((Clustering.stableSortPairs (labels.zip names)).map
    (fun p => p.1))).1
  have hmem := (hEnum ((Clustering.stableSortPairs (labels.zip names)).map
    (fun p => p.1))).2
  have hcov : ∀ p ∈ labels.zip names,
      p.1 ∈ setEnum ((Clustering.stableSortPairs (labels.zip names)).map
        (fun p => p.1)) := by
    intro p hp
    apply (hmem p.1).mpr
    apply (Clustering.mem_sortKeys_iff labels names h p.1).mpr
    have := List.mem_map_of_mem (fun q => (q.1 : Int)) hp
    rwa [List.map_fst_zip labels names (le_of_eq h)] at this
  have hsnd : (labels.zip names).map (fun p => p.2) = names :=
    List.map_snd_zip labels names (le_of_eq h.symm)
  have hfst : ((setEnum ((Clustering.stableSortPairs (labels.zip names)).map
          (fun p => p.1))).map
          (fun x => (x, ((labels.zip names).filter (fun p => p.1 == x)).map
            (fun p => p.2)))).map (fun r => r.1)
      = setEnum ((Clustering.stableSortPairs (labels.zip names)).map
          (fun p => p.1)) := by
    rw [List.map_map]
    exact List.map_id _
  refine ⟨?_, ?_, ?_, ?_⟩
  · rw [hfst]
    exact hnd
  · intro a
    rw [hfst]
    exact (hmem a).trans (Clustering.mem_sortKeys_iff labels names h a)
  · have hmsnd : ((setEnum ((Clustering.stableSortPairs (labels.zip names)).map
          (fun p => p.1))).map
          (fun x => (x, ((labels.zip names).filter (fun p => p.1 == x)).map
            (fun p => p.2)))).map (fun r => r.2)
        = (setEnum ((Clustering.stableSortPairs (labels.zip names)).map
            (fun p => p.1))).map
            (fun x => ((labels.zip names).filter (fun p => p.1 == x)).map
              (fun p => p.2)) := by
      rw [List.map_map]
      rfl
    rw [hmsnd]
    have hflat : ((setEnum ((Clustering.stableSortPairs (labels.zip names)).map
          (fun p => p.1))).map
          (fun x => ((labels.zip names).filter (fun p => p.1 == x)).map
            (fun p => p.2))).flatten
        = ((setEnum ((Clustering.stableSortPairs (labels.zip names)).map
            (fun p => p.1))).flatMap
            (fun x => (labels.zip names).filter (fun p => p.1 == x))).map
              (fun p => p.2) := by
      rw [List.map_flatMap]
      rfl
    rw [hflat]
    have hperm := Clustering.join_fibers_perm _ (labels.zip names) hnd hcov
    have := hperm.map (fun p => (p.2 : String))
    rwa [hsnd] at this
  · intro g hg
    rw [List.map_map] at hg
    obtain ⟨x, _, hx⟩ := List.mem_map.mp hg
    have hsub : ((labels.zip names).filter (fun p => p.1 == x)).map (fun p => p.2)
        |>.Sublist ((labels.zip names).map (fun p => p.2)) :=
      (List.filter_sublist _).map _
    rw [hsnd] at hsub
    have hgx : g = ((labels.zip names).filter (fun p => p.1 == x)).map
        (fun p => p.2) := by
      rw [← hx]
      rfl
    rw [hgx]
    exact hsub

/-- C4 witness: `sortedDistinct` is one admissible set enumeration (each
distinct element exactly once); labels `[1, 0, 1]` over entities
`a, b, c`. -/
theorem clustersTable_partition_witness :
    ([1, 0, 1] : Clustering.Labels).length = ["a", "b", "c"].length ∧
    (((Clustering.clustersTable Clustering.sortedDistinct
        [1, 0, 1] ["a", "b", "c"]).map (fun r => r.1)).Nodup ∧
      (∀ a, a ∈ (Clustering.clustersTable Clustering.sortedDistinct
        [1, 0, 1] ["a", "b", "c"]).map (fun r => r.1) ↔ a ∈ ([1, 0, 1] :
          Clustering.Labels)) ∧
      ((Clustering.clustersTable Clustering.sortedDistinct
        [1, 0, 1] ["a", "b", "c"]).map
        (fun r => r.2)).flatten.Perm ["a", "b", "c"] ∧
      (∀ g ∈ (Clustering.clustersTable Clustering.sortedDistinct
        [1, 0, 1] ["a", "b", "c"]).map
        (fun r => r.2), g.Sublist ["a", "b", "c"])) :=
  ⟨rfl, clustersTable_partition Clustering.sortedDistinct [1, 0, 1]
    ["a", "b", "c"] rfl
    (fun l => ⟨Clustering.nodup_sortedDistinct l,
      fun a => Clustering.mem_sortedDistinct a l⟩)⟩

/-! ### dropSparse: threshold behaviour -/

theorem zip_pair_unique {α β : Type} :
    ∀ (l1 : List α) (l2 : List β) (a : α) (b c : β), l1.Nodup →
      (a, b) ∈ l1.zip l2 → (a, c) ∈ l1.zip l2 → b = c := by
  intro l1
  induction l1 with
  | nil => intro l2 a b c _ h; simp at h
  | cons x xs ih =>
    intro l2 a b c hnd h1 h2
    cases l2 with
    | nil => simp at h1
    | cons y ys =>
      have hx : x ∉ xs := (List.nodup_cons.mp hnd).1
      have hnd' : xs.Nodup := (List.nodup_cons.mp hnd).2
      rw [List.zip_cons_cons] at h1 h2
      rcases List.mem_cons.mp h1 with h1 | h1 <;>
        rcases List.mem_cons.mp h2 with h2 | h2
      · rw [Prod.mk.injEq] at h1 h2
        rw [h1.2, h2.2]
      · rw [Prod.mk.injEq] at h1
        have := (List.of_mem_zip h2).1
        rw [h1.1] at this
        exact absurd this hx
      · rw [Prod.mk.injEq] at h2
        have := (List.of_mem_zip h1).1
        rw [h2.1] at this
        exact absurd this hx
      · exact ih ys a b c hnd' h1 h2

theorem mem_poorFeatures_iff {α : Type} (t : Preprocessing.PTable α)
    (axis : Nat) (p : ℚ) (label : String) :
    label ∈ Preprocessing.poorFeatures t axis p ↔
      ∃ m, (label, m) ∈ (Preprocessing.axisLabels t axis).zip
          (Preprocessing.missingCounts t axis) ∧
        p * (Preprocessing.axisLen t axis : ℚ) < (m : ℚ) := by
  unfold Preprocessing.poorFeatures
  constructor
  · intro h
    obtain ⟨lm, hlm, heq⟩ := List.mem_map.mp h
    have hf := List.mem_filter.mp hlm
    refine ⟨lm.2, ?_, ?_⟩
    · rw [← heq]; exact hf.1
    · simpa using hf.2
  · rintro ⟨m, hmem, hcond⟩
    apply List.mem_map.mpr
    refine ⟨(label, m), List.mem_filter.mpr ⟨hmem, ?_⟩, rfl⟩
    simpa using hcond

theorem dropPoorFeatures_snd {α : Type} (t : Preprocessing.PTable α)
    (axis : Nat) (p : ℚ) :
    (Preprocessing.dropPoorFeatures t axis p).2
      = Preprocessing.poorFeatures t axis p := by
  by_cases h : axis = 0 <;> simp [Preprocessing.dropPoorFeatures, h]

/-- C5: for every table, axis and threshold `0 ≤ p ≤ 1`, `dropPoorFeatures`
never removes a row/column whose missing-fraction is strictly below `p`;
when `p < 1` it always removes one whose missing-fraction equals `1`
(missing count equal to the axis length); and it returns the pruned table
together with the removed-labels list (the pruned axis keeps exactly the
labels not removed).  `m` is the missing count paired with `label` along
the pruned axis. -/
theorem dropSparse_threshold {α : Type} (t : Preprocessing.PTable α)
    (axis : Nat) (p : ℚ) (label : String) (m : Nat)
    (hax : axis ≤ 1) (hp0 : 0 ≤ p) (hp1 : p ≤ 1)
    (hnd : (Preprocessing.axisLabels t axis).Nodup)
    (hmem : (label, m) ∈ (Preprocessing.axisLabels t axis).zip
      (Preprocessing.missingCounts t axis))
    (hlen : 0 < Preprocessing.axisLen t axis) :
    ((m : ℚ) / (Preprocessing.axisLen t axis : ℚ) < p →
      label ∉ (Preprocessing.dropPoorFeatures t axis p).2) ∧
    (m = Preprocessing.axisLen t axis → p < 1 →
      label ∈ (Preprocessing.dropPoorFeatures t axis p).2) ∧
    (Preprocessing.dropPoorFeatures t axis p).2
      = Preprocessing.poorFeatures t axis p ∧
    Preprocessing.axisLabels (Preprocessing.dropPoorFeatures t axis p).1 axis
      = (Preprocessing.axisLabels t axis).filter
          (fun l => decide (l ∉ Preprocessing.poorFeatures t axis p)) := by
  have hlenQ : (0 : ℚ) < (Preprocessing.axisLen t axis : ℚ) := by
    exact_mod_cast hlen
  refine ⟨?_, ?_, dropPoorFeatures_snd t axis p, ?_⟩
  · intro hfrac hin
    rw [dropPoorFeatures_snd] at hin
    obtain ⟨m', hm', hcond⟩ := (mem_poorFeatures_iff t axis p label).mp hin
    have hmm : m' = m := zip_pair_unique _ _ label m' m hnd hm' hmem
    subst hmm
    have hlt : (m' : ℚ) < p * (Preprocessing.axisLen t axis : ℚ) := by
      rw [div_lt_iff hlenQ] at hfrac
      linarith [hfrac]
    exact absurd hcond (not_lt.mpr (le_of_lt hlt))
  · intro hm hp
    rw [dropPoorFeatures_snd]
    apply (mem_poorFeatures_iff t axis p label).mpr
    refine ⟨m, hmem, ?_⟩
    rw [hm]
    calc p * (Preprocessing.axisLen t axis : ℚ)
        < 1 * (Preprocessing.axisLen t axis : ℚ) :=
          mul_lt_mul_of_pos_right hp hlenQ
      _ = (Preprocessing.axisLen t axis : ℚ) := one_mul _
  · by_cases h : axis = 0
    · subst h
      simp [Preprocessing.dropPoorFeatures, Preprocessing.axisLabels]
    · simp [Preprocessing.dropPoorFeatures, Preprocessing.axisLabels, h]

/-- C5 witness: a 2-by-2 table whose first row is fully missing, pruned at
threshold one half. -/
theorem dropSparse_threshold_witness :
    ((2 : ℚ) / (2 : ℚ) < 1 / 2 →
      "r1" ∉ (Preprocessing.dropPoorFeatures
        (⟨["r1", "r2"], ["c1", "c2"], [[none, none], [some (1 : ℚ), none]]⟩ :
          Preprocessing.PTable ℚ) 0 (1/2)).2) ∧
    (2 = Preprocessing.axisLen
        (⟨["r1", "r2"], ["c1", "c2"], [[none, none], [some (1 : ℚ), none]]⟩ :
          Preprocessing.PTable ℚ) 0 → (1 : ℚ)/2 < 1 →
      "r1" ∈ (Preprocessing.dropPoorFeatures
        (⟨["r1", "r2"], ["c1", "c2"], [[none, none], [some (1 : ℚ), none]]⟩ :
          Preprocessing.PTable ℚ) 0 (1/2)).2) ∧
    (Preprocessing.dropPoorFeatures
        (⟨["r1", "r2"], ["c1", "c2"], [[none, none], [some (1 : ℚ), none]]⟩ :
          Preprocessing.PTable ℚ) 0 (1/2)).2
      = Preprocessing.poorFeatures
          (⟨["r1", "r2"], ["c1", "c2"], [[none, none], [some (1 : ℚ), none]]⟩ :
            Preprocessing.PTable ℚ) 0 (1/2) ∧
    Preprocessing.axisLabels (Preprocessing.dropPoorFeatures
        (⟨["r1", "r2"], ["c1", "c2"], [[none, none], [some (1 : ℚ), none]]⟩ :
          Preprocessing.PTable ℚ) 0 (1/2)).1 0
      = (["r1", "r2"].filter (fun l => decide (l ∉ Preprocessing.poorFeatures
          (⟨["r1", "r2"], ["c1", "c2"], [[none, none], [some (1 : ℚ), none]]⟩ :
            Preprocessing.PTable ℚ) 0 (1/2)))) :=
  dropSparse_threshold
    (⟨["r1", "r2"], ["c1", "c2"], [[none, none], [some (1 : ℚ), none]]⟩ :
      Preprocessing.PTable ℚ) 0 (1/2) "r1" 2
    (by decide) (by norm_num) (by norm_num) (by decide) (by decide) (by decide)

/-- C6 counterexample: in a table with a single numeric feature column, a
row whose numeric fields are all missing is NOT removed by
`dropPoorFeatures(axis=0, p=0.5)`: the missing fraction is computed over
all columns including the always-present `Country Name` cell, giving
1/2, which does not exceed the threshold. -/
theorem dropSparse_allMissingRow_cex :
    (("AAA", some "Aland", [(none : Option ℚ)]) ∈
      ([("AAA", some "Aland", [(none : Option ℚ)])] :
        List (String × Option String × List (Option ℚ)))) ∧
    (∀ c ∈ [(none : Option ℚ)], c = none) ∧
    "AAA" ∉ (Preprocessing.dropPoorFeatures
      (Preprocessing.prepTable [("AAA", some "Aland", [none])] ["gdp"])
      0 (1/2)).2 := by
  refine ⟨by decide, by decide, ?_⟩
  norm_num [Preprocessing.dropPoorFeatures, Preprocessing.poorFeatures,
    Preprocessing.axisLabels, Preprocessing.missingCounts,
    Preprocessing.axisLen, Preprocessing.countNone, Preprocessing.prepTable]

/-- C6 (amended): for every table containing a row whose numeric fields are
all missing, if the table has at least two numeric feature columns (so that
the row's overall missing fraction, which also counts the present
`Country Name` cell, exceeds one half), `dropPoorFeatures(axis=0, p=0.5)`
includes that row's identifier in the removed-labels list. -/
theorem dropSparse_allMissingRow
    (rows : List (String × Option String × List (Option ℚ)))
    (featNames : List String) (code : String) (cname : String)
    (nums : List (Option ℚ))
    (hrow : (code, some cname, nums) ∈ rows)
    (hmiss : ∀ c ∈ nums, c = none)
    (hlen : nums.length = featNames.length)
    (h2 : 2 ≤ nums.length) :
    code ∈ (Preprocessing.dropPoorFeatures
      (Preprocessing.prepTable rows featNames) 0 (1/2)).2 := by
  rw [dropPoorFeatures_snd]
  apply (mem_poorFeatures_iff _ 0 (1/2) code).mpr
  refine ⟨nums.length, ?_, ?_⟩
  · have hzip : (Preprocessing.axisLabels (Preprocessing.prepTable rows featNames) 0).zip
        (Preprocessing.missingCounts (Preprocessing.prepTable rows featNames) 0)
        = rows.map (fun r => (r.1, Preprocessing.countNone
            ((r.2.1.map Preprocessing.Cell.name) ::
              r.2.2.map (fun c => c.map Preprocessing.Cell.num)))) := by
      show (Preprocessing.prepTable rows featNames).rowLabels.zip
          ((Preprocessing.prepTable rows featNames).rows.map Preprocessing.countNone)
        = _
      show (rows.map (fun r => r.1)).zip
          ((rows.map (fun r => (r.2.1.map Preprocessing.Cell.name) ::
            r.2.2.map (fun c => c.map Preprocessing.Cell.num))).map
              Preprocessing.countNone) = _
      rw [List.map_map, List.zip_map']
      rfl
    rw [hzip]
    have hmem := List.mem_map_of_mem (fun r => (r.1, Preprocessing.countNone
      ((r.2.1.map Preprocessing.Cell.name) ::
        r.2.2.map (fun c => c.map Preprocessing.Cell.num)))) hrow
    have hcnt : Preprocessing.countNone
        ((some (Preprocessing.Cell.name cname)) ::
          nums.map (fun c => c.map Preprocessing.Cell.num)) = nums.length := by
      have hnums : nums.map (fun c => c.map Preprocessing.Cell.num)
          = nums.map (fun _ => (none : Option Preprocessing.Cell)) :=
        List.map_congr_left (fun c hc => by rw [hmiss c hc]; rfl)
      rw [Preprocessing.countNone, hnums]
      simp
    simpa [hcnt] using hmem
  · have hal : Preprocessing.axisLen (Preprocessing.prepTable rows featNames) 0
        = nums.length + 1 := by
      show ("Country Name" :: featNames).length = _
      simp [hlen]
    rw [hal]
    have h2q : (2 : ℚ) ≤ (nums.length : ℚ) := by exact_mod_cast h2
    push_cast
    linarith

/-- C6 witness for the amended claim: two numeric columns, one row fully
missing. -/
theorem dropSparse_allMissingRow_witness :
    (∀ c ∈ [(none : Option ℚ), none], c = none) ∧
    "BBB" ∈ (Preprocessing.dropPoorFeatures
      (Preprocessing.prepTable [("BBB", some "Bland", [none, none])] ["a", "b"])
      0 (1/2)).2 :=
  ⟨by decide,
   dropSparse_allMissingRow [("BBB", some "Bland", [none, none])] ["a", "b"]
     "BBB" "Bland" [none, none] (by decide) (by decide) (by decide) (by decide)⟩

/-- C7: `load` fails with `DuplicateKeyError` exactly when the entity
identifiers are not unique, never fails with any other error, and on a
table with unique identifiers produces the table whose numeric cells are
the parser applied to every field (unparseable text becomes `none`; the
embedded `load` is total, so no exception is possible on bad numeric
text). -/
theorem load_spec (parse : String → Option ℚ)
    (rows : List Preprocessing.RawRow) :
    (Preprocessing.load parse rows = .error .duplicateKey ↔
      ¬ (rows.map Preprocessing.RawRow.code).Nodup) ∧
    (∀ e, Preprocessing.load parse rows = .error e → e = .duplicateKey) ∧
    ((rows.map Preprocessing.RawRow.code).Nodup →
      Preprocessing.load parse rows = .ok
        ⟨rows.map Preprocessing.RawRow.code,
         rows.map Preprocessing.RawRow.name,
         rows.map (fun r => r.fields.map parse)⟩) := by
  unfold Preprocessing.load
  by_cases h : (rows.map Preprocessing.RawRow.code).Nodup
  · rw [if_pos h]
    refine ⟨⟨fun heq => absurd heq (by simp), fun hn => absurd h hn⟩, ?_, ?_⟩
    · intro e he
      exact absurd he (by simp)
    · intro _
      rfl
  · rw [if_neg h]
    refine ⟨⟨fun _ => h, fun _ => rfl⟩, ?_, ?_⟩
    · intro e he
      have := Except.error.inj he
      rw [← this]
    · intro hn
      exact absurd hn h

/-- C7 witness: unique keys, one parseable and one unparseable field. -/
theorem load_spec_witness :
    ((["A", "B"] : List String).Nodup) ∧
    Preprocessing.load (fun s => if s = "1" then some 1 else none)
      [⟨"A", "a", ["1", "x"]⟩, ⟨"B", "b", ["2"]⟩]
      = .ok ⟨["A", "B"], ["a", "b"], [[some 1, none], [none]]⟩ := by
  refine ⟨by decide, ?_⟩
  have h := (load_spec (fun s => if s = "1" then some 1 else none)
    [⟨"A", "a", ["1", "x"]⟩, ⟨"B", "b", ["2"]⟩]).2.2 (by decide)
  rw [h]
  norm_num
  exact ⟨fun hbad => absurd hbad (by decide), fun hbad => absurd hbad (by decide)⟩

/-! ### Projection selection, frame effects, reproducibility -/

theorem selectSpace_none (s : Clustering.Session) (k : Nat)
    (hpc : s.df_pc = none) (hk : 0 < k) :
    Clustering.selectSpace s k = .error .precomputeRequired := by
  unfold Clustering.selectSpace
  rw [if_pos hk, hpc]

theorem selectSpace_congr (s1 s2 : Clustering.Session) (k : Nat)
    (hdf : s1.df = s2.df) (hpc : s1.df_pc = s2.df_pc) :
    Clustering.selectSpace s1 k = Clustering.selectSpace s2 k := by
  unfold Clustering.selectSpace
  rw [hdf, hpc]

theorem lookup_store_self (m : List (String × Clustering.GroupsTable))
    (k : String) (v : Clustering.GroupsTable) :
    Clustering.lookupRun (Clustering.store m k v) k = some v := by
  simp [Clustering.lookupRun, Clustering.store]

theorem lookup_store_ne (m : List (String × Clustering.GroupsTable))
    (k : String) (v : Clustering.GroupsTable) (name : String) (h : k ≠ name) :
    Clustering.lookupRun (Clustering.store m k v) name
      = Clustering.lookupRun m name := by
  unfold Clustering.lookupRun Clustering.store
  rw [List.find?_cons_of_neg]
  simpa using h

/-- C2: the projection prologue shared by every clustering method of the
analyzer: once principal components are computed, `onComponents = k > 0`
selects exactly the first `k + 1` principal-component score columns of the
score table as the feature space handed to the fitting routine, while
`onComponents = 0` selects the full standardized feature table. -/
theorem selectSpace_projection (s : Clustering.Session) (k : Nat)
    (dpc : Clustering.Mat) (h : s.df_pc = some dpc) :
    (0 < k → Clustering.selectSpace s k = .ok (dpc.map (List.take (k + 1)))) ∧
    Clustering.selectSpace s 0 = .ok s.df := by
  constructor
  · intro hk
    unfold Clustering.selectSpace
    rw [if_pos hk, h]
  · rfl

/-- C2 witness: a two-row score table with two components; `onComponents = 1`
keeps the first two columns. -/
theorem selectSpace_projection_witness :
    demoSPC.df_pc = some [[1, 2], [3, 4]] ∧
    Clustering.selectSpace demoSPC 1 = .ok [[1, 2], [3, 4]] ∧
    Clustering.selectSpace demoSPC 0 = .ok demoSPC.df := by
  have h := selectSpace_projection demoSPC 1 [[1, 2], [3, 4]] rfl
  refine ⟨rfl, ?_, h.2⟩
  have h1 := h.1 (by decide)
  rw [h1]
  norm_num

/-- C3: in every session in which principal components have not been
computed (`df_pc` absent), every clustering call requesting a
component-space projection (`onComponents > 0`) fails with
`PrecomputeRequiredError`; and a freshly constructed session has no
principal components. -/
theorem precompute_required (lib : Clustering.MLLib) (c : Clustering.Call)
    (s : Clustering.Session) (hpc : s.df_pc = none) (hk : 0 < c.onPC) :
    Clustering.Call.apply lib c s = .error .precomputeRequired ∧
    (∀ raw names rng0, (Clustering.init lib raw names rng0).df_pc = none) := by
  refine ⟨?_, fun _ _ _ => rfl⟩
  cases c with
  | hier metric method th onPC =>
    have h := selectSpace_none s onPC hpc hk
    simp [Clustering.Call.apply, Clustering.hierarchicalClustering, h]
  | hdb m onPC =>
    have h := selectSpace_none s onPC hpc hk
    simp [Clustering.Call.apply, Clustering.hdbscanCluster, h]
  | bgm n cov nInit onPC =>
    have h := selectSpace_none s onPC hpc hk
    simp [Clustering.Call.apply, Clustering.bayesianGaussianMixture, h]
  | gm n cov nInit onPC =>
    have h := selectSpace_none s onPC hpc hk
    simp [Clustering.Call.apply, Clustering.gaussianMixture, h]
  | bic a b cov nInit onPC =>
    have h := selectSpace_none s onPC hpc hk
    simp [Clustering.Call.apply, Clustering.gmBIC, h]
  | km n onPC nInit ev =>
    have h := selectSpace_none s onPC hpc hk
    simp [Clustering.Call.apply, Clustering.kmeans, h, Except.map]
  | multiKm a b onPC nInit =>
    have h := selectSpace_none s onPC hpc hk
    simp [Clustering.Call.apply, Clustering.multipleKmeans, h, Except.map]

/-- C3 witness: a projected k-means call on a fresh session fails. -/
theorem precompute_required_witness :
    demoS.df_pc = none ∧
    Clustering.Call.apply demoLib (.km 2 1 1 true) demoS
      = .error .precomputeRequired :=
  ⟨rfl, (precompute_required demoLib (.km 2 1 1 true) demoS rfl (by decide)).1⟩

/-- C1 (code bug): `gmBIC` stores `bics.argmin() + 1` as the optimal
component count, which is the count minimizing BIC only when `nMin = 1`.
Sweeping `[2, 4)` with `BIC(n) = n`, the swept counts are 2 and 3 and the
unique BIC-minimizing count is 2 (conjunct two), yet the stored pair is
`(1, 2)` (conjunct one): the stored count 1 differs from the minimizer 2
and is not even in the swept range. -/
theorem gmBIC_stores_shifted_count :
    (Clustering.gmBIC demoLib 2 4 "full" 1 0 demoS).map
        (fun s => s.min_BIC) = .ok (some (1, 2)) ∧
    demoLib.gmBICval 2 "full" 1 [[0]] < demoLib.gmBICval 3 "full" 1 [[0]] ∧
    (1 : Nat) ≠ 2 := by
  refine ⟨?_, by norm_num [demoLib], by decide⟩
  show (Clustering.gmBIC demoLib 2 4 "full" 1 0 demoS).map
    (fun s => s.min_BIC) = .ok (some (1, 2))
  have hsel : Clustering.selectSpace demoS 0 = .ok [[0]] := rfl
  unfold Clustering.gmBIC
  rw [hsel]
  norm_num [demoLib, List.range', Clustering.argminIdx, Clustering.listMin,
    Except.map]

/-- C8: `kmeans` re-seeds the global RNG with the fixed seed 42 before every
fit, so two calls with the same data, principal components, display names
and parameters store identical label tables, whatever RNG state and results
collection each session carries — in particular two repeated calls in one
session produce identical labels (identity permutation). -/
theorem kmeans_reproducible (lib : Clustering.MLLib)
    (n onPC nInit : Nat) (ev : Bool) (s1 s2 : Clustering.Session)
    (hdf : s1.df = s2.df) (hpc : s1.df_pc = s2.df_pc)
    (hnames : s1.country_names = s2.country_names) :
    (Clustering.kmeans lib n onPC nInit ev s1).map
        (fun r => Clustering.lookupRun r.1.clusterings ("kmeans" ++ natStr n))
      = (Clustering.kmeans lib n onPC nInit ev s2).map
        (fun r => Clustering.lookupRun r.1.clusterings ("kmeans" ++ natStr n)) := by
  have hs := selectSpace_congr s1 s2 onPC hdf hpc
  unfold Clustering.kmeans
  rw [hs]
  cases hsel : Clustering.selectSpace s2 onPC with
  | error e => rfl
  | ok df =>
    simp only [Except.map, lookup_store_self, hnames]

/-- C8 witness: the same call on a fresh session and on a session that
already holds a result and a different RNG state. -/
theorem kmeans_reproducible_witness :
    demoS.df = demoS2.df ∧ demoS.rng ≠ demoS2.rng ∧
    (Clustering.kmeans demoLib 2 0 1 true demoS).map
        (fun r => Clustering.lookupRun r.1.clusterings ("kmeans" ++ natStr 2))
      = (Clustering.kmeans demoLib 2 0 1 true demoS2).map
        (fun r => Clustering.lookupRun r.1.clusterings ("kmeans" ++ natStr 2)) :=
  ⟨rfl, by decide,
   kmeans_reproducible demoLib 2 0 1 true demoS demoS2 rfl rfl rfl⟩

theorem hierFold_frame (lib : Clustering.MLLib) (metric : String)
    (threshold : ℚ) (df : Clustering.Mat) :
    ∀ (mets : List String) (s : Clustering.Session) (name : String),
      (∀ met ∈ mets, ("hierarchical_" ++ met ++ "_" ++ metric) ≠ name) →
      Clustering.lookupRun
          ((mets.foldl (Clustering.hierStep lib metric threshold df) s).clusterings)
          name
        = Clustering.lookupRun s.clusterings name := by
  intro mets
  induction mets with
  | nil => intro s name _; rfl
  | cons met mets ih =>
    intro s name hne
    rw [List.foldl_cons]
    rw [ih _ name (fun m hm => hne m (List.mem_cons_of_mem _ hm))]
    exact lookup_store_ne _ _ _ _ (hne met (List.mem_cons_self _ _))

theorem multiFold_frame (lib : Clustering.MLLib) (df : Clustering.Mat)
    (nInit : Nat) :
    ∀ (ks : List Nat) (acc : Clustering.Session × List ℚ × List ℚ) (name : String),
      (∀ k ∈ ks, ("kmeans" ++ natStr k) ≠ name) →
      Clustering.lookupRun
          ((ks.foldl (Clustering.multiKmeansStep lib df nInit) acc).1.clusterings)
          name
        = Clustering.lookupRun acc.1.clusterings name := by
  intro ks
  induction ks with
  | nil => intro acc name _; rfl
  | cons a ks ih =>
    intro acc name hne
    rw [List.foldl_cons]
    rw [ih _ name (fun m hm => hne m (List.mem_cons_of_mem _ hm))]
    exact lookup_store_ne _ _ _ _ (hne a (List.mem_cons_self _ _))

/-- C9: every clustering call writes only the results-collection entries for
its own run names: if the call succeeds, every entry stored under any other
run name reads back unchanged (so an existing result is overwritten only by
re-running the same name); and `gmBIC` leaves the whole results collection
unchanged. -/
theorem results_frame (lib : Clustering.MLLib) (c : Clustering.Call)
    (s s2 : Clustering.Session) (name : String)
    (happ : Clustering.Call.apply lib c s = .ok s2) :
    (name ∉ c.runNames → Clustering.lookupRun s2.clusterings name
        = Clustering.lookupRun s.clusterings name) ∧
    (c.isBIC = true → s2.clusterings = s.clusterings) := by
  cases c with
  | hier metric method th onPC =>
    refine ⟨?_, by intro h; exact absurd h (by simp [Clustering.Call.isBIC])⟩
    intro hname
    simp only [Clustering.Call.apply, Clustering.hierarchicalClustering] at happ
    cases hsel : Clustering.selectSpace s onPC with
    | error e => rw [hsel] at happ; exact absurd happ (by simp)
    | ok df =>
      rw [hsel] at happ
      have hs2 := Except.ok.inj happ
      rw [← hs2]
      apply hierFold_frame
      intro met hm heq
      apply hname
      show name ∈ (Clustering.resolveMethods method).map
        (fun met => "hierarchical_" ++ met ++ "_" ++ metric)
      exact heq ▸ List.mem_map_of_mem _ hm
  | hdb m onPC =>
    refine ⟨?_, by intro h; exact absurd h (by simp [Clustering.Call.isBIC])⟩
    intro hname
    simp only [Clustering.Call.apply, Clustering.hdbscanCluster] at happ
    cases hsel : Clustering.selectSpace s onPC with
    | error e => rw [hsel] at happ; exact absurd happ (by simp)
    | ok df =>
      rw [hsel] at happ
      have hs2 := Except.ok.inj happ
      rw [← hs2]
      apply lookup_store_ne
      intro heq
      exact hname (heq ▸ List.mem_cons_self _ _)
  | bgm n cov nInit onPC =>
    refine ⟨?_, by intro h; exact absurd h (by simp [Clustering.Call.isBIC])⟩
    intro hname
    simp only [Clustering.Call.apply, Clustering.bayesianGaussianMixture] at happ
    cases hsel : Clustering.selectSpace s onPC with
    | error e => rw [hsel] at happ; exact absurd happ (by simp)
    | ok df =>
      rw [hsel] at happ
      have hs2 := Except.ok.inj happ
      rw [← hs2]
      apply lookup_store_ne
      intro heq
      exact hname (heq ▸ List.mem_cons_self _ _)
  | gm n cov nInit onPC =>
    refine ⟨?_, by intro h; exact absurd h (by simp [Clustering.Call.isBIC])⟩
    intro hname
    simp only [Clustering.Call.apply, Clustering.gaussianMixture] at happ
    cases hsel : Clustering.selectSpace s onPC with
    | error e => rw [hsel] at happ; exact absurd happ (by simp)
    | ok df =>
      rw [hsel] at happ
      have hs2 := Except.ok.inj happ
      rw [← hs2]
      apply lookup_store_ne
      intro heq
      exact hname (heq ▸ List.mem_cons_self _ _)
  | bic a b cov nInit onPC =>
    have hcl : s2.clusterings = s.clusterings := by
      simp only [Clustering.Call.apply, Clustering.gmBIC] at happ
      cases hsel : Clustering.selectSpace s onPC with
      | error e => rw [hsel] at happ; exact absurd happ (by simp)
      | ok df =>
        rw [hsel] at happ
        have hs2 := Except.ok.inj happ
        rw [← hs2]
    exact ⟨fun _ => by rw [hcl], fun _ => hcl⟩
  | km n onPC nInit ev =>
    refine ⟨?_, by intro h; exact absurd h (by simp [Clustering.Call.isBIC])⟩
    intro hname
    simp only [Clustering.Call.apply, Clustering.kmeans] at happ
    cases hsel : Clustering.selectSpace s onPC with
    | error e => rw [hsel] at happ; exact absurd happ (by simp [Except.map])
    | ok df =>
      rw [hsel] at happ
      simp only [Except.map] at happ
      have hs2 := Except.ok.inj happ
      rw [← hs2]
      apply lookup_store_ne
      intro heq
      exact hname (heq ▸ List.mem_cons_self _ _)
  | multiKm a b onPC nInit =>
    refine ⟨?_, by intro h; exact absurd h (by simp [Clustering.Call.isBIC])⟩
    intro hname
    simp only [Clustering.Call.apply, Clustering.multipleKmeans] at happ
    cases hsel : Clustering.selectSpace s onPC with
    | error e => rw [hsel] at happ; exact absurd happ (by simp [Except.map])
    | ok df =>
      rw [hsel] at happ
      simp only [Except.map] at happ
      have hs2 := Except.ok.inj happ
      rw [← hs2]
      apply multiFold_frame
      intro k hk heq
      apply hname
      show name ∈ (List.range' a (b - a)).map (fun k => "kmeans" ++ natStr k)
      exact heq ▸ List.mem_map_of_mem _ hk

/-- C9 witness: after a `kmeans2` run, an unrelated run name reads back
unchanged. -/
theorem results_frame_witness :
    "nope" ∉ (Clustering.Call.km 2 0 1 true).runNames ∧
    Clustering.lookupRun demoS2.clusterings "nope"
      = Clustering.lookupRun demoS.clusterings "nope" :=
  ⟨by decide,
   (results_frame demoLib (.km 2 0 1 true) demoS demoS2 "nope" rfl).1 (by decide)⟩

theorem multiFold_lookup (lib : Clustering.MLLib) (df : Clustering.Mat)
    (nInit : Nat) :
    ∀ (ks : List Nat) (acc : Clustering.Session × List ℚ × List ℚ) (k : Nat),
      k ∈ ks → ks.Nodup →
      Clustering.lookupRun
          ((ks.foldl (Clustering.multiKmeansStep lib df nInit) acc).1.clusterings)
          ("kmeans" ++ natStr k)
        = some (Clustering.clustersTable lib.setEnum (lib.kmeansFit 42 k nInit df)
            acc.1.country_names) := by
  intro ks
  induction ks with
  | nil => intro acc k hk _; simp at hk
  | cons a ks ih =>
    intro acc k hk hnd
    rw [List.foldl_cons]
    rcases List.mem_cons.mp hk with hk | hk
    · subst hk
      have hni : k ∉ ks := (List.nodup_cons.mp hnd).1
      rw [multiFold_frame lib df nInit ks _ _
        (fun j hj heq => hni ((kmeansName_injective j k heq) ▸ hj))]
      exact lookup_store_self _ _ _
    · rw [ih _ k hk (List.nodup_cons.mp hnd).2]
      rfl

/-- C10: besides returning the two score sequences, `multipleKmeans` has the
same result-storing side effect as running `kmeans` once per cluster count:
for every `k` in `[kMin, kMax)`, the entry stored under `kmeans<k>` after the
sweep is exactly the entry the single `kmeans` call with `k` clusters stores
on the same session. -/
theorem multipleKmeans_stores (lib : Clustering.MLLib)
    (kMin kMax onPC nInit : Nat) (s : Clustering.Session) (k : Nat)
    (h1 : kMin ≤ k) (h2 : k < kMax) :
    (Clustering.multipleKmeans lib kMin kMax onPC nInit s).map
        (fun r => Clustering.lookupRun r.1.clusterings ("kmeans" ++ natStr k))
      = (Clustering.kmeans lib k onPC nInit true s).map
        (fun r => Clustering.lookupRun r.1.clusterings ("kmeans" ++ natStr k)) := by
  unfold Clustering.multipleKmeans Clustering.kmeans
  cases hsel : Clustering.selectSpace s onPC with
  | error e => rfl
  | ok df =>
    simp only [Except.map]
    have hk : k ∈ List.range' kMin (kMax - kMin) := by
      rw [List.mem_range'_1]
      omega
    rw [multiFold_lookup lib df nInit _ _ k hk (List.nodup_range' _ _)]
    rw [lookup_store_self]

/-- C10 witness: sweeping `[1, 3)` stores the same `kmeans2` entry as the
single call with 2 clusters. -/
theorem multipleKmeans_stores_witness :
    1 ≤ 2 ∧ 2 < 3 ∧
    (Clustering.multipleKmeans demoLib 1 3 0 1 demoS).map
        (fun r => Clustering.lookupRun r.1.clusterings ("kmeans" ++ natStr 2))
      = (Clustering.kmeans demoLib 2 0 1 true demoS).map
        (fun r => Clustering.lookupRun r.1.clusterings ("kmeans" ++ natStr 2)) :=
  ⟨by decide, by decide,
   multipleKmeans_stores demoLib 1 3 0 1 demoS 2 (by decide) (by decide)⟩
